import Mathlib

/-!
Shallow embedding of the repo-agent system: the search tool surface
(tools.py), the judge (judge.py), the agent control loop (agent.py) and the
trajectory scorer (agent.py), together with theorems checking the
specification's claims about them.

External collaborators (the sqlite database and the LLM inference calls) are
modelled as explicit oracles passed to the embedded functions; a database
call that raises a sqlite error is modelled by the oracle returning an
Except.error value, which the embedded code handles exactly where the Python
code has an except clause.
-/

deriving instance DecidableEq for Except

/-- A row returned by the SELECT statements in tools.py: repository_name,
func_path_in_repository, func_name, COALESCE(func_documentation_string,''),
COALESCE(func_code_tokens,''). -/
structure DBRow where
  repositoryName : String
  funcPath : String
  funcName : String
  funcDocs : String
  funcCodeTokens : String
deriving DecidableEq, Repr

/-- A sqlite3 error raised by a cursor.execute call. sqlite3.OperationalError
is a subclass of sqlite3.Error; tools.py catches the former inside
_search_with_fts and the latter in the outer handler of search_repo. -/
inductive DBError where
  | operational (msg : String)
  | otherError (msg : String)
deriving DecidableEq, Repr

/-- The record built by read_repo_function from a github_code row (fields as
in the constructor call in tools.py; the Function class itself is imported
from data_types). -/
structure Function where
  repo_name : String
  func_path_in_repository : String
  func_name : String
  whole_func_string : String
  language : String
  func_documentation_string : String
  code_tokens : String
deriving DecidableEq, Repr

/-- Oracle for the read-only sqlite database behind tools.py. Each field
models one cursor.execute shape: the FTS5 MATCH query (fts_query, repo_name,
limit), the LIKE fallback query (keywords, repo_name, limit), and the
exact-key lookup of read_repo_function. An .error result models the execute
call raising a sqlite3 error. -/
structure DBOracle where
  ftsExec : String → String → Nat → Except DBError (List DBRow)
  likeExec : List String → String → Nat → Except DBError (List DBRow)
  readExec : String → String → String → Except DBError (Option Function)

/-- SearchResult dataclass from tools.py. -/
structure SearchResult where
  repoName : String
  funcPath : String
  funcName : String
  funcDocs : String
  funcSnippet : String
deriving DecidableEq, Repr

/-- Python str.capitalize(): first character uppercased, the rest
lowercased. -/
def pyCapitalize (s : String) : String :=
  match s.data with
  | [] => ""
  | c :: cs => String.mk (c.toUpper :: cs.map Char.toLower)

/-- Helper for pySplit: structural recursion over the characters, carrying
the (reversed) current word. -/
def pySplitChars : List Char → List Char → List String
  | [], acc => if acc = [] then [] else [String.mk acc.reverse]
  | c :: cs, acc =>
    if c.isWhitespace then
      if acc = [] then pySplitChars cs []
      else String.mk acc.reverse :: pySplitChars cs []
    else pySplitChars cs (c :: acc)

/-- Python str.split() with no argument: split on whitespace runs, dropping
empty pieces (so the empty string yields []). -/
def pySplit (s : String) : List String :=
  pySplitChars s.data []

/-- Python sep.join(parts) (kernel-reducible replacement for
String.intercalate). -/
def joinSep (sep : String) : List String → String
  | [] => ""
  | [s] => s
  | s :: rest => s ++ sep ++ joinSep sep rest

/-- Duplicate removal keeping first occurrences, used where the Python code
applies list(set(...)) (whose order is unspecified). -/
def dedupKeepFirst (seen : List String) : List String → List String
  | [] => []
  | s :: rest =>
    if s ∈ seen then dedupKeepFirst seen rest
    else s :: dedupKeepFirst (s :: seen) rest

/-- _generate_camelcase_variations from tools.py: the keyword itself, its
capitalized form, three common camelCase prefixes, and two prefix-wildcard
forms; list(set(...)) removes duplicates (its order is unspecified in
Python; we keep first occurrences). -/
def _generate_camelcase_variations (keywords : List String) : List String :=
  let variations := keywords.flatMap (fun keyword =>
    [keyword,
     pyCapitalize keyword,
     "Combine" ++ pyCapitalize keyword,
     "Mix" ++ pyCapitalize keyword,
     "Base" ++ pyCapitalize keyword,
     keyword ++ "*",
     pyCapitalize keyword ++ "*"])
  dedupKeepFirst [] variations

/-- keyword.replace('"', '""') for the single-character pattern: each double
quote is doubled. -/
def escapeQuotes (s : String) : String :=
  String.mk (s.data.flatMap (fun c => if c = '"' then ['"', '"'] else [c]))

/-- Escaping of one keyword in _search_with_fts: wrap in double quotes
(doubling inner quotes) when it contains an FTS5 special character. -/
def escapeKeyword (keyword : String) : String :=
  if keyword.data.contains '-' || keyword.data.contains ' ' ||
     keyword.data.contains '"' || keyword.data.contains '*' then
    "\"" ++ escapeQuotes keyword ++ "\""
  else keyword

/-- The FTS query string built in _search_with_fts:
" AND ".join(escaped_keywords) if escaped_keywords else "*". -/
def ftsQuery (keywords : List String) : String :=
  let escaped := keywords.map escapeKeyword
  if escaped = [] then "*" else joinSep " AND " escaped

/-- _convert_to_search_results from tools.py: func_code_tokens is
whitespace-split and the snippet keeps the first 50 tokens (with an ellipsis
when more were present); func_docs is copied into the result as-is. -/
def _convert_to_search_results (rows : List DBRow) : List SearchResult :=
  rows.map (fun row =>
    let tokens := pySplit row.funcCodeTokens
    let funcSnippet :=
      joinSep " " (tokens.take 50) ++
        (if tokens.length > 50 then "..." else "")
    { repoName := row.repositoryName
      funcPath := row.funcPath
      funcName := row.funcName
      funcDocs := row.funcDocs
      funcSnippet := funcSnippet })

/-- _search_with_fts from tools.py: run the FTS query; an OperationalError
from execute is caught and yields [], any other sqlite error propagates to
the caller. -/
def _search_with_fts (db : DBOracle) (repoName : String) (keywords : List String)
    (maxResults : Nat) : Except DBError (List SearchResult) :=
  match db.ftsExec (ftsQuery keywords) repoName maxResults with
  | .ok rows => .ok (_convert_to_search_results rows)
  | .error (.operational _) => .ok []
  | .error (.otherError m) => .error (.otherError m)

/-- _search_with_like from tools.py: returns [] immediately for an empty
keyword list; otherwise runs the LIKE query, any sqlite error propagating. -/
def _search_with_like (db : DBOracle) (repoName : String) (keywords : List String)
    (maxResults : Nat) : Except DBError (List SearchResult) :=
  if keywords = [] then .ok []
  else
    match db.likeExec keywords repoName maxResults with
    | .ok rows => .ok (_convert_to_search_results rows)
    | .error e => .error e

/-- The inner loop of search_repo over the camelCase variations of one
keyword: one _search_with_fts call per variation, results concatenated. -/
def enhancedForKeyword (db : DBOracle) (repoName : String) (maxResults : Nat) :
    List String → Except DBError (List SearchResult)
  | [] => .ok []
  | ek :: rest => do
    let r ← _search_with_fts db repoName [ek] maxResults
    let rs ← enhancedForKeyword db repoName maxResults rest
    .ok (r ++ rs)

/-- The outer loop of search_repo over the original keywords, expanding each
into its camelCase variations. -/
def enhancedResults (db : DBOracle) (repoName : String) (maxResults : Nat) :
    List String → Except DBError (List SearchResult)
  | [] => .ok []
  | keyword :: rest => do
    let r ← enhancedForKeyword db repoName maxResults
      (_generate_camelcase_variations [keyword])
    let rs ← enhancedResults db repoName maxResults rest
    .ok (r ++ rs)

/-- The all_results list collected by search_repo before deduplication: FTS
results for the original keywords, then the per-keyword camelCase-variation
results, then the LIKE fallback results. An .error value models a
non-operational sqlite error reaching search_repo's outer except clause. -/
def collectAllResults (db : DBOracle) (repoName : String) (keywords : List String)
    (maxResults : Nat) : Except DBError (List SearchResult) := do
  let ftsResults ← _search_with_fts db repoName keywords maxResults
  let enhanced ← enhancedResults db repoName maxResults keywords
  let likeResults ← _search_with_like db repoName keywords maxResults
  .ok (ftsResults ++ enhanced ++ likeResults)

/-- The deduplication key used by search_repo. -/
def resultKey (r : SearchResult) : String × String × String :=
  (r.repoName, r.funcPath, r.funcName)

/-- The dedup loop of search_repo: keep a result only when its key has not
been seen, preserving order of first occurrences. -/
def dedupByKey (seen : List (String × String × String)) :
    List SearchResult → List SearchResult
  | [] => []
  | r :: rest =>
    if resultKey r ∈ seen then dedupByKey seen rest
    else r :: dedupByKey (resultKey r :: seen) rest

/-- search_repo from tools.py: collect results from all strategies, dedup by
(repo, func_path, func_name), cap at max_results (default 20); an empty
final list yields None (the no-match sentinel) while a sqlite error caught
by the outer handler yields the empty list. -/
def search_repo (db : DBOracle) (repoName : String) (keywords : List String)
    (maxResults : Nat := 20) : Option (List SearchResult) :=
  match collectAllResults db repoName keywords maxResults with
  | .error _ => some []
  | .ok allResults =>
    let searchResults := (dedupByKey [] allResults).take maxResults
    if searchResults.isEmpty then none else some searchResults

/-- read_repo_function from tools.py: exact-key lookup; a missing row yields
None and a sqlite error is caught and also yields None. -/
def read_repo_function (db : DBOracle) (repoName funcPath funcName : String) :
    Option Function :=
  match db.readExec repoName funcPath funcName with
  | .ok r => r
  | .error _ => none

/-! ## Judge (judge.py) -/

/-- JudgeAnswer pydantic model from judge.py. -/
structure JudgeAnswer where
  reasoning : String
  is_correct : Bool
deriving DecidableEq, Repr

/-- judge_answer from judge.py, with the two external steps as oracles:
inferResult models the acompletion call (an .error value is the call raising
an exception, caught by the first except clause), and decode models the
json.loads / field-extraction / pydantic-validation block (None is any
exception in that block, caught by the second except clause; the .get
defaults "No reasoning provided" and False are folded into a successful
decode). Both failure paths produce a default verdict instead of raising. -/
def judge_answer (inferResult : Except String String)
    (decode : String → Option (String × Bool)) : JudgeAnswer :=
  match inferResult with
  | .error e =>
    { reasoning := "Error in acompletion: " ++ e, is_correct := false }
  | .ok content =>
    match decode content with
    | none => { reasoning := "Error parsing response", is_correct := false }
    | some (r, b) => { reasoning := r, is_correct := b }

/-! ## Agent loop (agent.py) -/

/-- FinalAnswer pydantic model from agent.py. -/
structure FinalAnswer where
  answer : String
  functions : List String
deriving DecidableEq, Repr

/-- The arguments of one tool call after json.loads. The .malformed case
models arguments whose JSON parse fails, or that do not match the called
tool's signature (both raise inside the dispatch try block). -/
inductive ToolArgs where
  | searchArgs (keywords : List String)
  | readArgs (funcPath : String) (funcName : String)
  | answerArgs (answer : String) (functions : List String)
  | malformed (raw : String)
deriving DecidableEq, Repr

/-- One tool-call request carried by an assistant message (id, name,
arguments). -/
structure ToolCall where
  id : String
  name : String
  args : ToolArgs
deriving DecidableEq, Repr

/-- A conversation message, as appended to
trajectory.messages_and_choices. -/
inductive Message where
  | system (content : String)
  | user (content : String)
  | assistant (content : String) (toolCalls : Option (List ToolCall))
  | tool (toolCallId : String) (name : String) (content : String)
deriving DecidableEq, Repr

/-- The assistant message returned by one acompletion call (tool_calls is
None when the model produced no tool-call request). -/
structure AssistantMsg where
  content : String
  toolCalls : Option (List ToolCall)
deriving DecidableEq, Repr

/-- ProjectTrajectory from agent.py. The reward is a float in the source but
only ever holds the exact values 0.0 and 1.0 (float(bool)), so we use ℚ. -/
structure ProjectTrajectory where
  reward : ℚ
  messagesAndChoices : List Message
  answer : Option FinalAnswer := none
deriving DecidableEq, Repr

def MAX_TURNS : Nat := 10

/-- The system prompt of run_agent (f-string interpolating MAX_TURNS). -/
def SYSTEM_PROMPT : String :=
  "You are a github repo searcher. You will be given a question about the " ++
  "code within the repo. You will use the tools provided to search the " ++
  "repo and read functions to answer the question. You may operate for up " ++
  "to " ++ toString MAX_TURNS ++
  ", so if your first search doesn't find the answer, you can use " ++
  "different keywords."

/-- The names in tools_by_name, built from the three local tool
functions. -/
def toolNames : List String := ["search_functions", "read_function", "return_answer"]

/-- The result of a successful tool invocation (the dynamic type of
tool_result in run_agent). -/
inductive ToolResult where
  | searchRes (r : Option (List SearchResult))
  | readRes (r : Option Function)
  | answerRes (fa : FinalAnswer)
deriving DecidableEq, Repr

/-- Rendering of one SearchResult into the tool-result content string
(abstraction of Python str() on the dataclass; no claim inspects this
text). -/
def strOfSearchResult (r : SearchResult) : String :=
  "SearchResult(repo_name=" ++ r.repoName ++ ", func_path=" ++ r.funcPath ++
  ", func_name=" ++ r.funcName ++ ", func_docs=" ++ r.funcDocs ++
  ", func_snippet=" ++ r.funcSnippet ++ ")"

/-- content = "" if tool_result is None else str(tool_result): a None tool
result becomes the empty string, anything else its string rendering
(abstraction of Python str(); no claim inspects the non-empty text). -/
def strOfToolResult : ToolResult → String
  | .searchRes none => ""
  | .searchRes (some rs) => "[" ++ joinSep ", " (rs.map strOfSearchResult) ++ "]"
  | .readRes none => ""
  | .readRes (some f) =>
      "Function(repo_name=" ++ f.repo_name ++ ", func_name=" ++ f.func_name ++ ")"
  | .answerRes fa =>
      "FinalAnswer(answer=" ++ fa.answer ++ ", functions=[" ++
        joinSep ", " fa.functions ++ "])"

/-- Dispatch of one resolved tool call: parse the arguments and invoke the
tool closure (search_functions, read_function or return_answer from
run_agent, with the episode's repo captured). An .error value models an
exception inside the dispatch try block (json.loads failure or a signature
mismatch); the three tools themselves return normally. -/
def dispatchTool (db : DBOracle) (repo : String) (name : String) (args : ToolArgs) :
    Except Unit ToolResult :=
  if name = "search_functions" then
    match args with
    | .searchArgs keywords => .ok (.searchRes (search_repo db repo keywords))
    | _ => .error ()
  else if name = "read_function" then
    match args with
    | .readArgs funcPath funcName =>
        .ok (.readRes (read_repo_function db repo funcPath funcName))
    | _ => .error ()
  else if name = "return_answer" then
    match args with
    | .answerArgs answer functions => .ok (.answerRes ⟨answer, functions⟩)
    | _ => .error ()
  else .error ()

/-- How one model turn's tool-call loop ended: .answered means return_answer
was dispatched (run_agent returns the trajectory at once), .errored means an
exception escaped to the except clause (run_agent returns the trajectory at
once), .finished means the whole list was processed and the loop
continues. -/
inductive TurnOutcome where
  | answered
  | errored
  | finished
deriving DecidableEq, Repr

/-- Extract the FinalAnswer assigned to trajectory.answer. -/
def answerOf : ToolResult → Option FinalAnswer
  | .answerRes fa => some fa
  | _ => none

/-- The for-loop over response.choices[0].message.tool_calls in run_agent:
unresolved names are skipped with no tool-result message; a resolved call is
dispatched, its tool-result message appended, and if it was return_answer
the trajectory's answer is set and the episode ends; a dispatch fault ends
the episode with nothing further appended. -/
def processCalls (db : DBOracle) (repo : String) (traj : ProjectTrajectory) :
    List ToolCall → ProjectTrajectory × TurnOutcome
  | [] => (traj, .finished)
  | c :: rest =>
    if c.name ∈ toolNames then
      match dispatchTool db repo c.name c.args with
      | .error _ => (traj, .errored)
      | .ok res =>
        let traj1 := { traj with
          messagesAndChoices :=
            traj.messagesAndChoices ++ [Message.tool c.id c.name (strOfToolResult res)] }
        if c.name = "return_answer" then
          ({ traj1 with answer := answerOf res }, .answered)
        else
          processCalls db repo traj1 rest
    else
      processCalls db repo traj rest

/-- The terminal state of an episode (ghost data: the Python code does not
record why it returned, but each return site is one of these). -/
inductive TermState where
  | byAnswer
  | noToolCall
  | budgetExhausted
  | dispatchError
deriving DecidableEq, Repr

/-- The while loop of run_agent, by structural recursion on the remaining
turn budget. Besides the trajectory it returns the terminal state and the
list of conversations passed to acompletion, one entry per inference call
(both are ghost data; the trajectory computation is exactly the source's). -/
def runLoop (infer : List Message → AssistantMsg) (db : DBOracle) (repo : String) :
    Nat → ProjectTrajectory → ProjectTrajectory × TermState × List (List Message)
  | 0, traj => (traj, .budgetExhausted, [])
  | fuel + 1, traj =>
    let resp := infer traj.messagesAndChoices
    let traj1 := { traj with
      messagesAndChoices :=
        traj.messagesAndChoices ++ [Message.assistant resp.content resp.toolCalls] }
    match resp.toolCalls with
    | none => (traj1, .noToolCall, [traj.messagesAndChoices])
    | some calls =>
      match processCalls db repo traj1 calls with
      | (traj2, .answered) => (traj2, .byAnswer, [traj.messagesAndChoices])
      | (traj2, .errored) => (traj2, .dispatchError, [traj.messagesAndChoices])
      | (traj2, .finished) =>
        let r := runLoop infer db repo fuel traj2
        (r.1, r.2.1, traj.messagesAndChoices :: r.2.2)

/-- The trajectory created at the top of run_agent, after its
messages_and_choices is seeded with the system and user messages. -/
def initTraj (question : String) : ProjectTrajectory :=
  { reward := 0
    messagesAndChoices := [Message.system SYSTEM_PROMPT, Message.user question]
    answer := none }

/-- run_agent from agent.py: the model is abstracted into the infer oracle
(one acompletion call: conversation in, assistant message out) and the
database into db. -/
def run_agent (infer : List Message → AssistantMsg) (db : DBOracle)
    (repo : String) (question : String) :
    ProjectTrajectory × TermState × List (List Message) :=
  runLoop infer db repo MAX_TURNS (initTraj question)

/-! ## Trajectory scorer (agent.py) -/

/-- Modelled from the spec: the Scenario record (its class lives in
data_types, whose definition is not in the sources; the spec gives its
fields as id, question, answer (reference), repo, functions (reference
citations), how_realistic, split). -/
structure Scenario where
  id : Nat
  question : String
  answer : String
  repo : String
  functions : List String
  how_realistic : ℚ
  split : String
deriving DecidableEq, Repr

/-- run_agent_and_score from agent.py: run one episode; if no answer was
produced the trajectory is returned at once (reward untouched, Judge never
called), otherwise judge_answer is invoked and the reward set to
float(score.is_correct). jinfer models the judge's acompletion call on the
(question, reference answer, final answer) triple and jdecode its response
parsing. The Bool is ghost data: whether the Judge was invoked. -/
def run_agent_and_score (infer : List Message → AssistantMsg) (db : DBOracle)
    (jinfer : String → String → FinalAnswer → Except String String)
    (jdecode : String → Option (String × Bool))
    (scenario : Scenario) : ProjectTrajectory × Bool :=
  let r := run_agent infer db scenario.repo scenario.question
  let trajectory := r.1
  match trajectory.answer with
  | none => (trajectory, false)
  | some ans =>
    let score := judge_answer (jinfer scenario.question scenario.answer ans) jdecode
    ({ trajectory with reward := if score.is_correct then 1 else 0 }, true)

/-! ## Concrete oracles used in witnesses and counterexamples -/

/-- A database oracle over an empty index: every query succeeds with no
rows. -/
def db0 : DBOracle :=
  { ftsExec := fun _ _ _ => .ok []
    likeExec := fun _ _ _ => .ok []
    readExec := fun _ _ _ => .ok none }

/-- A database oracle whose every query raises a non-operational sqlite
error. -/
def dbErr : DBOracle :=
  { ftsExec := fun _ _ _ => .error (.otherError "no such table")
    likeExec := fun _ _ _ => .error (.otherError "no such table")
    readExec := fun _ _ _ => .error (.otherError "no such table") }

/-- An inference oracle that always answers without any tool call. -/
def inferNoTools : List Message → AssistantMsg := fun _ => ⟨"hi", none⟩

/-- An inference oracle that always requests an empty tool-call list. -/
def inferEmptyCalls : List Message → AssistantMsg := fun _ => ⟨"", some []⟩

/-- An inference oracle that requests one well-formed search call on the
first turn and stops on the second. -/
def inferOneSearch : List Message → AssistantMsg := fun conv =>
  if conv.length = 2 then
    ⟨"", some [⟨"call_1", "search_functions", ToolArgs.searchArgs ["x"]⟩]⟩
  else ⟨"done", none⟩

/-- An inference oracle that requests one tool call with an unknown name on
the first turn and stops on the second. -/
def inferBogus : List Message → AssistantMsg := fun conv =>
  if conv.length = 2 then
    ⟨"", some [⟨"call_1", "bogus_tool", ToolArgs.searchArgs []⟩]⟩
  else ⟨"done", none⟩

/-- An inference oracle that immediately returns an answer through
return_answer. -/
def inferAnswer : List Message → AssistantMsg := fun _ =>
  ⟨"", some [⟨"call_1", "return_answer", ToolArgs.answerArgs "42" ["f"]⟩]⟩

/-! ## Conversation bookkeeping for the tool-call/tool-result invariant -/

/-- The correlation ids of all tool-call requests carried by one message. -/
def callIdsOf : Message → List String
  | .assistant _ (some calls) => calls.map (fun c => c.id)
  | _ => []

/-- The correlation ids of the tool-call requests whose name resolves in
tools_by_name. -/
def resolvedCallIds : Message → List String
  | .assistant _ (some calls) =>
      (calls.filter (fun c => decide (c.name ∈ toolNames))).map (fun c => c.id)
  | _ => []

/-- All tool-call-request ids in a conversation. -/
def requestIds (msgs : List Message) : List String :=
  msgs.flatMap callIdsOf

/-- All resolved tool-call-request ids in a conversation. -/
def resolvedIds (msgs : List Message) : List String :=
  msgs.flatMap resolvedCallIds

/-- Whether a message is a tool-result message carrying the given
correlation id. -/
def isToolMsgWithId (cid : String) : Message → Bool
  | .tool tid _ _ => decide (tid = cid)
  | _ => false

/-- Number of tool-result messages in the conversation carrying the given
correlation id. -/
def toolMsgCount (msgs : List Message) (cid : String) : Nat :=
  (msgs.filter (isToolMsgWithId cid)).length

/-- The invariant as the claim states it: every tool-call request (resolved
or not) has exactly one tool-result message. -/
def balancedAll (msgs : List Message) : Prop :=
  ∀ cid ∈ requestIds msgs, toolMsgCount msgs cid = 1

/-- The invariant the code maintains: every resolved tool-call request has
exactly one tool-result message. -/
def balancedResolved (msgs : List Message) : Prop :=
  ∀ cid ∈ resolvedIds msgs, toolMsgCount msgs cid = 1

instance (msgs : List Message) : Decidable (balancedAll msgs) := by
  unfold balancedAll; infer_instance

instance (msgs : List Message) : Decidable (balancedResolved msgs) := by
  unfold balancedResolved; infer_instance

/-- Number of calls in a turn's list that are resolved and carry the given
id (each of them produces exactly one tool-result message when the turn
completes). -/
def countResolved (calls : List ToolCall) (cid : String) : Nat :=
  (calls.filter (fun c => decide (c.name ∈ toolNames) && decide (c.id = cid))).length

/-- A judge inference oracle that always succeeds with a fixed content. -/
def jinferOk : String → String → FinalAnswer → Except String String :=
  fun _ _ _ => .ok "x"

/-- A decode oracle that always parses to a correct verdict. -/
def jdecodeTrue : String → Option (String × Bool) := fun _ => some ("ok", true)

/-- A decode oracle that always fails to parse. -/
def jdecodeNone : String → Option (String × Bool) := fun _ => none

/-- A concrete scenario used by witnesses. -/
def scen0 : Scenario := ⟨0, "q", "a", "r", [], 1, "train"⟩

/-- A concrete well-formed search_functions call. -/
def callSearch : ToolCall := ⟨"c1", "search_functions", .searchArgs ["x"]⟩

/-- A concrete well-formed return_answer call. -/
def callAnswer : ToolCall := ⟨"c2", "return_answer", .answerArgs "42" ["f"]⟩

/-- A concrete well-formed read_function call. -/
def callRead : ToolCall := ⟨"c3", "read_function", .readArgs "p" "f"⟩

/-- A concrete database row used by search witnesses. -/
def rowA : DBRow := ⟨"r", "p", "f", "d", "t"⟩

/-- A database oracle that returns the same single row for every FTS and
LIKE query, so that the different match strategies produce duplicates. -/
def dbDup : DBOracle :=
  { ftsExec := fun _ _ _ => .ok [rowA]
    likeExec := fun _ _ _ => .ok [rowA]
    readExec := fun _ _ _ => .ok none }

/-- A 300-character documentation string (longer than any bounded preview
length on the order of 200 characters). -/
def longDoc : String := String.mk (List.replicate 300 'a')

/-- A database row whose documentation field is 300 characters long. -/
def rowLongDoc : DBRow := ⟨"r", "p", "f", longDoc, "t1 t2"⟩

/-- The conversation invariant maintained by the agent loop: every resolved
tool-call request has exactly one tool-result message, and every tool-result
message answers some resolved request. -/
def convInv (msgs : List Message) : Prop :=
  balancedResolved msgs ∧ ∀ cid, 0 < toolMsgCount msgs cid → cid ∈ resolvedIds msgs

/-! ## Helper lemmas about processCalls -/

/-- The trajectory as extended by one appended message. -/
def addMsg (traj : ProjectTrajectory) (m : Message) : ProjectTrajectory :=
  { traj with messagesAndChoices := traj.messagesAndChoices ++ [m] }

theorem processCalls_cons_unresolved (db : DBOracle) (repo : String)
    (traj : ProjectTrajectory) (c : ToolCall) (rest : List ToolCall)
    (h : c.name ∉ toolNames) :
    processCalls db repo traj (c :: rest) = processCalls db repo traj rest := by
  rw [processCalls]; exact if_neg h

theorem processCalls_cons_error (db : DBOracle) (repo : String)
    (traj : ProjectTrajectory) (c : ToolCall) (rest : List ToolCall)
    (hmem : c.name ∈ toolNames) (e : Unit)
    (hd : dispatchTool db repo c.name c.args = .error e) :
    processCalls db repo traj (c :: rest) = (traj, .errored) := by
  rw [processCalls, if_pos hmem, hd]

theorem processCalls_cons_answer (db : DBOracle) (repo : String)
    (traj : ProjectTrajectory) (c : ToolCall) (rest : List ToolCall)
    (hmem : c.name ∈ toolNames) (res : ToolResult)
    (hd : dispatchTool db repo c.name c.args = .ok res)
    (hname : c.name = "return_answer") :
    processCalls db repo traj (c :: rest) =
      ({ addMsg traj (Message.tool c.id c.name (strOfToolResult res)) with
          answer := answerOf res }, .answered) := by
  rw [processCalls, if_pos hmem, hd]
  dsimp only
  rw [if_pos hname]
  rfl

theorem processCalls_cons_step (db : DBOracle) (repo : String)
    (traj : ProjectTrajectory) (c : ToolCall) (rest : List ToolCall)
    (hmem : c.name ∈ toolNames) (res : ToolResult)
    (hd : dispatchTool db repo c.name c.args = .ok res)
    (hname : c.name ≠ "return_answer") :
    processCalls db repo traj (c :: rest) =
      processCalls db repo
        (addMsg traj (Message.tool c.id c.name (strOfToolResult res))) rest := by
  rw [processCalls, if_pos hmem, hd]
  dsimp only
  rw [if_neg hname]
  rfl

/-- A successful dispatch of the return_answer tool only happens on
well-formed answerArgs, and produces exactly the FinalAnswer built from
them. -/
theorem dispatch_return_answer (db : DBOracle) (repo : String) (args : ToolArgs)
    (res : ToolResult)
    (hd : dispatchTool db repo "return_answer" args = .ok res) :
    ∃ a fs, args = .answerArgs a fs ∧ res = .answerRes ⟨a, fs⟩ := by
  unfold dispatchTool at hd
  simp only [reduceIte] at hd
  cases args with
  | answerArgs a fs => exact ⟨a, fs, rfl, by injection hd with h2; exact h2.symm⟩
  | searchArgs kws => cases hd
  | readArgs p f => cases hd
  | malformed raw => cases hd

theorem processCalls_reward (db : DBOracle) (repo : String) :
    ∀ calls traj, (processCalls db repo traj calls).1.reward = traj.reward := by
  intro calls
  induction calls with
  | nil => intro traj; rfl
  | cons c rest ih =>
    intro traj
    by_cases hmem : c.name ∈ toolNames
    · cases hd : dispatchTool db repo c.name c.args with
      | error e => rw [processCalls_cons_error db repo traj c rest hmem e hd]
      | ok res =>
        by_cases hname : c.name = "return_answer"
        · rw [processCalls_cons_answer db repo traj c rest hmem res hd hname]
          rfl
        · rw [processCalls_cons_step db repo traj c rest hmem res hd hname]
          exact ih _
    · rw [processCalls_cons_unresolved db repo traj c rest hmem]
      exact ih _

theorem processCalls_answer_preserved (db : DBOracle) (repo : String) :
    ∀ calls traj, (processCalls db repo traj calls).2 ≠ .answered →
      (processCalls db repo traj calls).1.answer = traj.answer := by
  intro calls
  induction calls with
  | nil => intro traj _; rfl
  | cons c rest ih =>
    intro traj hne
    by_cases hmem : c.name ∈ toolNames
    · cases hd : dispatchTool db repo c.name c.args with
      | error e => rw [processCalls_cons_error db repo traj c rest hmem e hd]
      | ok res =>
        by_cases hname : c.name = "return_answer"
        · rw [processCalls_cons_answer db repo traj c rest hmem res hd hname] at hne
          exact absurd rfl hne
        · rw [processCalls_cons_step db repo traj c rest hmem res hd hname] at hne ⊢
          exact ih _ hne
    · rw [processCalls_cons_unresolved db repo traj c rest hmem] at hne ⊢
      exact ih _ hne

theorem processCalls_answered_some (db : DBOracle) (repo : String) :
    ∀ calls traj, (processCalls db repo traj calls).2 = .answered →
      ∃ a fs, (processCalls db repo traj calls).1.answer = some ⟨a, fs⟩ := by
  intro calls
  induction calls with
  | nil => intro traj h; exact absurd h (by simp [processCalls])
  | cons c rest ih =>
    intro traj h
    by_cases hmem : c.name ∈ toolNames
    · cases hd : dispatchTool db repo c.name c.args with
      | error e =>
        rw [processCalls_cons_error db repo traj c rest hmem e hd] at h
        cases h
      | ok res =>
        by_cases hname : c.name = "return_answer"
        · have hd2 : dispatchTool db repo "return_answer" c.args = .ok res := by
            rw [← hname]; exact hd
          obtain ⟨a, fs, _, hres⟩ := dispatch_return_answer db repo c.args res hd2
          refine ⟨a, fs, ?_⟩
          rw [processCalls_cons_answer db repo traj c rest hmem res hd hname]
          simp [hres, answerOf]
        · rw [processCalls_cons_step db repo traj c rest hmem res hd hname] at h ⊢
          exact ih _ h
    · rw [processCalls_cons_unresolved db repo traj c rest hmem] at h ⊢
      exact ih _ h

theorem processCalls_msgs_append (db : DBOracle) (repo : String) :
    ∀ calls traj, ∃ ts,
      (processCalls db repo traj calls).1.messagesAndChoices =
        traj.messagesAndChoices ++ ts ∧
      ∀ m ∈ ts, callIdsOf m = [] ∧ resolvedCallIds m = [] ∧
        ∃ cid nm ct, m = Message.tool cid nm ct := by
  intro calls
  induction calls with
  | nil => intro traj; exact ⟨[], by simp [processCalls]⟩
  | cons c rest ih =>
    intro traj
    by_cases hmem : c.name ∈ toolNames
    · cases hd : dispatchTool db repo c.name c.args with
      | error e =>
        rw [processCalls_cons_error db repo traj c rest hmem e hd]
        exact ⟨[], by simp⟩
      | ok res =>
        by_cases hname : c.name = "return_answer"
        · rw [processCalls_cons_answer db repo traj c rest hmem res hd hname]
          refine ⟨[Message.tool c.id c.name (strOfToolResult res)], rfl, ?_⟩
          intro m hm
          simp only [List.mem_singleton] at hm
          subst hm
          exact ⟨rfl, rfl, _, _, _, rfl⟩
        · rw [processCalls_cons_step db repo traj c rest hmem res hd hname]
          obtain ⟨ts, hts, hall⟩ := ih (addMsg traj (Message.tool c.id c.name (strOfToolResult res)))
          refine ⟨Message.tool c.id c.name (strOfToolResult res) :: ts, ?_, ?_⟩
          · rw [hts]; simp [addMsg]
          · intro m hm
            rcases List.mem_cons.mp hm with h1 | h2
            · subst h1; exact ⟨rfl, rfl, _, _, _, rfl⟩
            · exact hall m h2
    · rw [processCalls_cons_unresolved db repo traj c rest hmem]
      exact ih traj

theorem processCalls_msgs_isPrefixOf (db : DBOracle) (repo : String)
    (calls : List ToolCall) (traj : ProjectTrajectory) :
    traj.messagesAndChoices <+: (processCalls db repo traj calls).1.messagesAndChoices := by
  obtain ⟨ts, hts, _⟩ := processCalls_msgs_append db repo calls traj
  exact ⟨ts, hts.symm⟩

/-! ## Helper lemmas about runLoop -/

theorem runLoop_succ_none (infer : List Message → AssistantMsg) (db : DBOracle)
    (repo : String) (fuel : Nat) (traj : ProjectTrajectory)
    (h : (infer traj.messagesAndChoices).toolCalls = none) :
    runLoop infer db repo (fuel + 1) traj =
      (addMsg traj (Message.assistant (infer traj.messagesAndChoices).content none),
        .noToolCall, [traj.messagesAndChoices]) := by
  rw [runLoop]
  simp only [h]
  rfl

theorem runLoop_succ_answered (infer : List Message → AssistantMsg) (db : DBOracle)
    (repo : String) (fuel : Nat) (traj : ProjectTrajectory) (calls : List ToolCall)
    (traj2 : ProjectTrajectory)
    (h : (infer traj.messagesAndChoices).toolCalls = some calls)
    (hp : processCalls db repo
        (addMsg traj (Message.assistant (infer traj.messagesAndChoices).content (some calls)))
        calls = (traj2, .answered)) :
    runLoop infer db repo (fuel + 1) traj = (traj2, .byAnswer, [traj.messagesAndChoices]) := by
  rw [runLoop]
  simp only [h]
  rw [show (addMsg traj (Message.assistant (infer traj.messagesAndChoices).content (some calls))) =
    { traj with messagesAndChoices := traj.messagesAndChoices ++
        [Message.assistant (infer traj.messagesAndChoices).content (some calls)] } from rfl] at hp
  rw [hp]

theorem runLoop_succ_errored (infer : List Message → AssistantMsg) (db : DBOracle)
    (repo : String) (fuel : Nat) (traj : ProjectTrajectory) (calls : List ToolCall)
    (traj2 : ProjectTrajectory)
    (h : (infer traj.messagesAndChoices).toolCalls = some calls)
    (hp : processCalls db repo
        (addMsg traj (Message.assistant (infer traj.messagesAndChoices).content (some calls)))
        calls = (traj2, .errored)) :
    runLoop infer db repo (fuel + 1) traj = (traj2, .dispatchError, [traj.messagesAndChoices]) := by
  rw [runLoop]
  simp only [h]
  rw [show (addMsg traj (Message.assistant (infer traj.messagesAndChoices).content (some calls))) =
    { traj with messagesAndChoices := traj.messagesAndChoices ++
        [Message.assistant (infer traj.messagesAndChoices).content (some calls)] } from rfl] at hp
  rw [hp]

theorem runLoop_succ_finished (infer : List Message → AssistantMsg) (db : DBOracle)
    (repo : String) (fuel : Nat) (traj : ProjectTrajectory) (calls : List ToolCall)
    (traj2 : ProjectTrajectory)
    (h : (infer traj.messagesAndChoices).toolCalls = some calls)
    (hp : processCalls db repo
        (addMsg traj (Message.assistant (infer traj.messagesAndChoices).content (some calls)))
        calls = (traj2, .finished)) :
    runLoop infer db repo (fuel + 1) traj =
      ((runLoop infer db repo fuel traj2).1, (runLoop infer db repo fuel traj2).2.1,
        traj.messagesAndChoices :: (runLoop infer db repo fuel traj2).2.2) := by
  rw [runLoop]
  simp only [h]
  rw [show (addMsg traj (Message.assistant (infer traj.messagesAndChoices).content (some calls))) =
    { traj with messagesAndChoices := traj.messagesAndChoices ++
        [Message.assistant (infer traj.messagesAndChoices).content (some calls)] } from rfl] at hp
  rw [hp]

theorem runLoop_reward (infer : List Message → AssistantMsg) (db : DBOracle)
    (repo : String) :
    ∀ fuel traj, (runLoop infer db repo fuel traj).1.reward = traj.reward := by
  intro fuel
  induction fuel with
  | zero => intro traj; rfl
  | succ fuel ih =>
    intro traj
    cases hc : (infer traj.messagesAndChoices).toolCalls with
    | none =>
      rw [runLoop_succ_none infer db repo fuel traj hc]
      rfl
    | some calls =>
      rcases hp : processCalls db repo
        (addMsg traj (Message.assistant (infer traj.messagesAndChoices).content (some calls)))
        calls with ⟨traj2, oc⟩
      have hrw := processCalls_reward db repo calls
        (addMsg traj (Message.assistant (infer traj.messagesAndChoices).content (some calls)))
      rw [hp] at hrw
      cases oc with
      | answered =>
        rw [runLoop_succ_answered infer db repo fuel traj calls traj2 hc hp]
        exact hrw
      | errored =>
        rw [runLoop_succ_errored infer db repo fuel traj calls traj2 hc hp]
        exact hrw
      | finished =>
        rw [runLoop_succ_finished infer db repo fuel traj calls traj2 hc hp]
        dsimp only
        rw [ih traj2]
        exact hrw

theorem runLoop_answer_preserved (infer : List Message → AssistantMsg) (db : DBOracle)
    (repo : String) :
    ∀ fuel traj, (runLoop infer db repo fuel traj).2.1 ≠ .byAnswer →
      (runLoop infer db repo fuel traj).1.answer = traj.answer := by
  intro fuel
  induction fuel with
  | zero => intro traj _; rfl
  | succ fuel ih =>
    intro traj hne
    cases hc : (infer traj.messagesAndChoices).toolCalls with
    | none =>
      rw [runLoop_succ_none infer db repo fuel traj hc]
      rfl
    | some calls =>
      rcases hp : processCalls db repo
        (addMsg traj (Message.assistant (infer traj.messagesAndChoices).content (some calls)))
        calls with ⟨traj2, oc⟩
      cases oc with
      | answered =>
        rw [runLoop_succ_answered infer db repo fuel traj calls traj2 hc hp] at hne
        exact absurd rfl hne
      | errored =>
        rw [runLoop_succ_errored infer db repo fuel traj calls traj2 hc hp]
        have hpp := processCalls_answer_preserved db repo calls
          (addMsg traj (Message.assistant (infer traj.messagesAndChoices).content (some calls)))
          (by rw [hp]; intro hcon; cases hcon)
        rw [hp] at hpp
        exact hpp
      | finished =>
        rw [runLoop_succ_finished infer db repo fuel traj calls traj2 hc hp] at hne ⊢
        dsimp only at hne ⊢
        rw [ih traj2 hne]
        have hpp := processCalls_answer_preserved db repo calls
          (addMsg traj (Message.assistant (infer traj.messagesAndChoices).content (some calls)))
          (by rw [hp]; intro hcon; cases hcon)
        rw [hp] at hpp
        exact hpp

theorem runLoop_byAnswer_some (infer : List Message → AssistantMsg) (db : DBOracle)
    (repo : String) :
    ∀ fuel traj, (runLoop infer db repo fuel traj).2.1 = .byAnswer →
      ∃ a fs, (runLoop infer db repo fuel traj).1.answer = some ⟨a, fs⟩ := by
  intro fuel
  induction fuel with
  | zero => intro traj h; cases h
  | succ fuel ih =>
    intro traj hst
    cases hc : (infer traj.messagesAndChoices).toolCalls with
    | none =>
      rw [runLoop_succ_none infer db repo fuel traj hc] at hst
      cases hst
    | some calls =>
      rcases hp : processCalls db repo
        (addMsg traj (Message.assistant (infer traj.messagesAndChoices).content (some calls)))
        calls with ⟨traj2, oc⟩
      cases oc with
      | answered =>
        rw [runLoop_succ_answered infer db repo fuel traj calls traj2 hc hp]
        have hpp := processCalls_answered_some db repo calls
          (addMsg traj (Message.assistant (infer traj.messagesAndChoices).content (some calls)))
          (by rw [hp])
        rw [hp] at hpp
        exact hpp
      | errored =>
        rw [runLoop_succ_errored infer db repo fuel traj calls traj2 hc hp] at hst
        cases hst
      | finished =>
        rw [runLoop_succ_finished infer db repo fuel traj calls traj2 hc hp] at hst ⊢
        exact ih traj2 hst

theorem runLoop_log_length (infer : List Message → AssistantMsg) (db : DBOracle)
    (repo : String) :
    ∀ fuel traj, (runLoop infer db repo fuel traj).2.2.length ≤ fuel := by
  intro fuel
  induction fuel with
  | zero => intro traj; exact Nat.le_refl 0
  | succ fuel ih =>
    intro traj
    cases hc : (infer traj.messagesAndChoices).toolCalls with
    | none =>
      rw [runLoop_succ_none infer db repo fuel traj hc]
      exact Nat.succ_le_succ (Nat.zero_le fuel)
    | some calls =>
      rcases hp : processCalls db repo
        (addMsg traj (Message.assistant (infer traj.messagesAndChoices).content (some calls)))
        calls with ⟨traj2, oc⟩
      cases oc with
      | answered =>
        rw [runLoop_succ_answered infer db repo fuel traj calls traj2 hc hp]
        exact Nat.succ_le_succ (Nat.zero_le fuel)
      | errored =>
        rw [runLoop_succ_errored infer db repo fuel traj calls traj2 hc hp]
        exact Nat.succ_le_succ (Nat.zero_le fuel)
      | finished =>
        rw [runLoop_succ_finished infer db repo fuel traj calls traj2 hc hp]
        exact Nat.succ_le_succ (ih traj2)

theorem runLoop_msgs_isPrefixOf (infer : List Message → AssistantMsg) (db : DBOracle)
    (repo : String) :
    ∀ fuel traj,
      traj.messagesAndChoices <+: (runLoop infer db repo fuel traj).1.messagesAndChoices := by
  intro fuel
  induction fuel with
  | zero => intro traj; exact ⟨[], List.append_nil _⟩
  | succ fuel ih =>
    intro traj
    cases hc : (infer traj.messagesAndChoices).toolCalls with
    | none =>
      rw [runLoop_succ_none infer db repo fuel traj hc]
      exact ⟨_, rfl⟩
    | some calls =>
      rcases hp : processCalls db repo
        (addMsg traj (Message.assistant (infer traj.messagesAndChoices).content (some calls)))
        calls with ⟨traj2, oc⟩
      have hpre1 : traj.messagesAndChoices <+:
          (addMsg traj (Message.assistant (infer traj.messagesAndChoices).content
            (some calls))).messagesAndChoices := ⟨_, rfl⟩
      have hpre2 := processCalls_msgs_isPrefixOf db repo calls
        (addMsg traj (Message.assistant (infer traj.messagesAndChoices).content (some calls)))
      rw [hp] at hpre2
      cases oc with
      | answered =>
        rw [runLoop_succ_answered infer db repo fuel traj calls traj2 hc hp]
        exact hpre1.trans hpre2
      | errored =>
        rw [runLoop_succ_errored infer db repo fuel traj calls traj2 hc hp]
        exact hpre1.trans hpre2
      | finished =>
        rw [runLoop_succ_finished infer db repo fuel traj calls traj2 hc hp]
        exact (hpre1.trans hpre2).trans (ih traj2)

theorem runLoop_log_isPrefixOf (infer : List Message → AssistantMsg) (db : DBOracle)
    (repo : String) :
    ∀ fuel traj, ∀ conv ∈ (runLoop infer db repo fuel traj).2.2,
      conv <+: (runLoop infer db repo fuel traj).1.messagesAndChoices := by
  intro fuel
  induction fuel with
  | zero => intro traj conv hconv; cases hconv
  | succ fuel ih =>
    intro traj conv hconv
    cases hc : (infer traj.messagesAndChoices).toolCalls with
    | none =>
      rw [runLoop_succ_none infer db repo fuel traj hc] at hconv ⊢
      simp only [List.mem_singleton] at hconv
      subst hconv
      exact ⟨_, rfl⟩
    | some calls =>
      rcases hp : processCalls db repo
        (addMsg traj (Message.assistant (infer traj.messagesAndChoices).content (some calls)))
        calls with ⟨traj2, oc⟩
      have hpre1 : traj.messagesAndChoices <+:
          (addMsg traj (Message.assistant (infer traj.messagesAndChoices).content
            (some calls))).messagesAndChoices := ⟨_, rfl⟩
      have hpre2 := processCalls_msgs_isPrefixOf db repo calls
        (addMsg traj (Message.assistant (infer traj.messagesAndChoices).content (some calls)))
      rw [hp] at hpre2
      cases oc with
      | answered =>
        rw [runLoop_succ_answered infer db repo fuel traj calls traj2 hc hp] at hconv ⊢
        simp only [List.mem_singleton] at hconv
        subst hconv
        exact hpre1.trans hpre2
      | errored =>
        rw [runLoop_succ_errored infer db repo fuel traj calls traj2 hc hp] at hconv ⊢
        simp only [List.mem_singleton] at hconv
        subst hconv
        exact hpre1.trans hpre2
      | finished =>
        rw [runLoop_succ_finished infer db repo fuel traj calls traj2 hc hp] at hconv ⊢
        dsimp only at hconv ⊢
        rcases List.mem_cons.mp hconv with h1 | h2
        · subst h1
          exact (hpre1.trans hpre2).trans (runLoop_msgs_isPrefixOf infer db repo fuel traj2)
        · exact ih traj2 conv h2
/-! ## Claim theorems -/

/-- C2: In every episode, Trajectory.final_answer is populated if and only
if the episode terminated through an invocation of the return_answer tool
(the .byAnswer terminal state), so the no-tool-call, budget-exhaustion and
dispatch-fault endings all leave it unset; in particular, a first-turn
assistant response with no tool calls ends the episode in the
no-tool-call state with no answer. -/
theorem claim_C2_answer_iff_terminated_by_answer
    (infer : List Message → AssistantMsg) (db : DBOracle) (repo question : String) :
    ((run_agent infer db repo question).1.answer.isSome ↔
      (run_agent infer db repo question).2.1 = TermState.byAnswer) ∧
    ((infer (initTraj question).messagesAndChoices).toolCalls = none →
      (run_agent infer db repo question).2.1 = TermState.noToolCall ∧
      (run_agent infer db repo question).1.answer = none) := by
  constructor
  · unfold run_agent
    constructor
    · intro hsome
      by_contra hne
      rw [runLoop_answer_preserved infer db repo MAX_TURNS (initTraj question) hne] at hsome
      simp [initTraj] at hsome
    · intro hst
      obtain ⟨a, fs, h⟩ :=
        runLoop_byAnswer_some infer db repo MAX_TURNS (initTraj question) hst
      rw [h]
      rfl
  · intro hc
    unfold run_agent
    rw [show MAX_TURNS = 9 + 1 from rfl,
      runLoop_succ_none infer db repo 9 (initTraj question) hc]
    exact ⟨rfl, rfl⟩

theorem claim_C2_witness :
    (run_agent inferNoTools db0 "r" "q").2.1 = TermState.noToolCall :=
  ((claim_C2_answer_iff_terminated_by_answer inferNoTools db0 "r" "q").2 rfl).1

/-- C5: run_agent always terminates (it is a total function of the fuel
MAX_TURNS) and performs at most MAX_TURNS = 10 inference calls per episode
(the log records one conversation per acompletion call); when the budget is
exhausted while still running, the returned trajectory has no final
answer. -/
theorem claim_C5_turn_budget
    (infer : List Message → AssistantMsg) (db : DBOracle) (repo question : String) :
    MAX_TURNS = 10 ∧
    (run_agent infer db repo question).2.2.length ≤ MAX_TURNS ∧
    ((run_agent infer db repo question).2.1 = TermState.budgetExhausted →
      (run_agent infer db repo question).1.answer = none) := by
  refine ⟨rfl, runLoop_log_length infer db repo MAX_TURNS (initTraj question), ?_⟩
  intro hb
  unfold run_agent at hb ⊢
  rw [runLoop_answer_preserved infer db repo MAX_TURNS (initTraj question)
    (by rw [hb]; intro hcon; cases hcon)]
  rfl

theorem claim_C5_witness :
    (run_agent inferEmptyCalls db0 "r" "q").1.answer = none :=
  (claim_C5_turn_budget inferEmptyCalls db0 "r" "q").2.2 (by decide)

/-- C1: run_agent_and_score returns a trajectory whose reward is exactly 0
or 1; when the episode produced no FinalAnswer the reward is 0 and the
Judge is never invoked (the ghost Bool is false); when a FinalAnswer was
produced, the Judge is invoked and the reward is 1 exactly when its verdict
has is_correct true, else 0. -/
theorem claim_C1_reward_binary
    (infer : List Message → AssistantMsg) (db : DBOracle)
    (jinfer : String → String → FinalAnswer → Except String String)
    (jdecode : String → Option (String × Bool)) (scenario : Scenario) :
    ((run_agent_and_score infer db jinfer jdecode scenario).1.reward = 0 ∨
      (run_agent_and_score infer db jinfer jdecode scenario).1.reward = 1) ∧
    ((run_agent infer db scenario.repo scenario.question).1.answer = none →
      (run_agent_and_score infer db jinfer jdecode scenario).1.reward = 0 ∧
      (run_agent_and_score infer db jinfer jdecode scenario).2 = false) ∧
    (∀ ans, (run_agent infer db scenario.repo scenario.question).1.answer = some ans →
      (run_agent_and_score infer db jinfer jdecode scenario).2 = true ∧
      ((run_agent_and_score infer db jinfer jdecode scenario).1.reward = 1 ↔
        (judge_answer (jinfer scenario.question scenario.answer ans) jdecode).is_correct
          = true)) := by
  have hrew : (run_agent infer db scenario.repo scenario.question).1.reward = 0 :=
    runLoop_reward infer db scenario.repo MAX_TURNS (initTraj scenario.question)
  cases hx : (run_agent infer db scenario.repo scenario.question).1.answer with
  | none =>
    have hval : run_agent_and_score infer db jinfer jdecode scenario =
        ((run_agent infer db scenario.repo scenario.question).1, false) := by
      unfold run_agent_and_score
      dsimp only
      simp only [hx]
    refine ⟨?_, ?_, ?_⟩
    · exact Or.inl (by rw [hval]; exact hrew)
    · intro _
      exact ⟨by rw [hval]; exact hrew, by rw [hval]⟩
    · intro ans hans
      cases hans
  | some ans0 =>
    have hval : run_agent_and_score infer db jinfer jdecode scenario =
        ({ (run_agent infer db scenario.repo scenario.question).1 with
            reward := if (judge_answer
              (jinfer scenario.question scenario.answer ans0) jdecode).is_correct
              then 1 else 0 }, true) := by
      unfold run_agent_and_score
      dsimp only
      simp only [hx]
    refine ⟨?_, ?_, ?_⟩
    · rw [hval]
      by_cases hj : (judge_answer (jinfer scenario.question scenario.answer ans0)
          jdecode).is_correct
      · exact Or.inr (by simp [hj])
      · exact Or.inl (by simp [hj])
    · intro hnone
      cases hnone
    · intro ans hans
      injection hans with hans
      subst hans
      refine ⟨by rw [hval], ?_⟩
      rw [hval]
      by_cases hj : (judge_answer (jinfer scenario.question scenario.answer ans0)
          jdecode).is_correct
      · simp [hj]
      · simp only [hj, if_false, Bool.false_eq_true, iff_false]
        intro hcon
        norm_num at hcon

theorem claim_C1_witness :
    (run_agent_and_score inferNoTools db0 jinferOk jdecodeTrue scen0).1.reward = 0 ∧
    (run_agent_and_score inferAnswer db0 jinferOk jdecodeTrue scen0).1.reward = 1 :=
  ⟨((claim_C1_reward_binary inferNoTools db0 jinferOk jdecodeTrue scen0).2.1 (by decide)).1,
   ((claim_C1_reward_binary inferAnswer db0 jinferOk jdecodeTrue scen0).2.2
      ⟨"42", ["f"]⟩ (by decide)).2.mpr (by decide)⟩

/-- C3: judge_answer never propagates an exception (it is a total function
into JudgeAnswer): when the inference call fails with error e it returns a
verdict with is_correct false and the non-empty reasoning string
"Error in acompletion: " ++ e, which carries the error detail; when the
call succeeds but its content does not decode as structured output it
returns is_correct false with the parse-error reasoning string. -/
theorem claim_C3_judge_failure_defaults
    (inferResult : Except String String) (decode : String → Option (String × Bool)) :
    (∀ e, inferResult = .error e →
      judge_answer inferResult decode =
        ⟨"Error in acompletion: " ++ e, false⟩ ∧
      0 < ("Error in acompletion: " ++ e).length) ∧
    (∀ c, inferResult = .ok c → decode c = none →
      judge_answer inferResult decode = ⟨"Error parsing response", false⟩) := by
  constructor
  · intro e he
    subst he
    refine ⟨rfl, ?_⟩
    rw [String.length_append]
    have h22 : ("Error in acompletion: ").length = 22 := by decide
    omega
  · intro c hc hdec
    subst hc
    simp [judge_answer, hdec]

theorem claim_C3_witness :
    judge_answer (Except.error "boom") jdecodeTrue =
      ⟨"Error in acompletion: " ++ "boom", false⟩ ∧
    judge_answer (Except.ok "x") jdecodeNone = ⟨"Error parsing response", false⟩ :=
  ⟨((claim_C3_judge_failure_defaults (Except.error "boom") jdecodeTrue).1 "boom" rfl).1,
   (claim_C3_judge_failure_defaults (Except.ok "x") jdecodeNone).2 "x" rfl rfl⟩

/-! ## Lemmas for the return_answer termination claim -/

theorem processCalls_head_answer (db : DBOracle) (repo : String)
    (traj : ProjectTrajectory) (c : ToolCall) (post : List ToolCall)
    (a : String) (fs : List String)
    (hname : c.name = "return_answer") (hargs : c.args = ToolArgs.answerArgs a fs) :
    processCalls db repo traj (c :: post) =
      ({ addMsg traj (Message.tool c.id c.name
          (strOfToolResult (ToolResult.answerRes ⟨a, fs⟩))) with
            answer := some ⟨a, fs⟩ }, .answered) := by
  have hd : dispatchTool db repo c.name c.args = .ok (.answerRes ⟨a, fs⟩) := by
    rw [hname, hargs]; rfl
  rw [processCalls_cons_answer db repo traj c post (by rw [hname]; decide)
    (.answerRes ⟨a, fs⟩) hd hname]
  rfl

theorem processCalls_skip_front (db : DBOracle) (repo : String) :
    ∀ pre : List ToolCall,
      (∀ c2 ∈ pre, c2.name ≠ "return_answer") →
      (∀ c2 ∈ pre, c2.name ∈ toolNames → (dispatchTool db repo c2.name c2.args).isOk) →
      ∀ traj, ∃ traj1, ∀ rest,
        processCalls db repo traj (pre ++ rest) = processCalls db repo traj1 rest := by
  intro pre
  induction pre with
  | nil => intro _ _ traj; exact ⟨traj, fun _ => rfl⟩
  | cons c2 pre2 ih =>
    intro hnoans hok traj
    by_cases hmem : c2.name ∈ toolNames
    · cases hd : dispatchTool db repo c2.name c2.args with
      | error e =>
        have := hok c2 (List.mem_cons_self c2 pre2) hmem
        rw [hd] at this
        cases this
      | ok res =>
        obtain ⟨traj1, h1⟩ := ih (fun x hx => hnoans x (List.mem_cons_of_mem c2 hx))
          (fun x hx => hok x (List.mem_cons_of_mem c2 hx))
          (addMsg traj (Message.tool c2.id c2.name (strOfToolResult res)))
        refine ⟨traj1, fun rest => ?_⟩
        rw [List.cons_append,
          processCalls_cons_step db repo traj c2 (pre2 ++ rest) hmem res hd
            (hnoans c2 (List.mem_cons_self c2 pre2)),
          h1 rest]
    · obtain ⟨traj1, h1⟩ := ih (fun x hx => hnoans x (List.mem_cons_of_mem c2 hx))
        (fun x hx => hok x (List.mem_cons_of_mem c2 hx)) traj
      refine ⟨traj1, fun rest => ?_⟩
      rw [List.cons_append,
        processCalls_cons_unresolved db repo traj c2 (pre2 ++ rest) hmem,
        h1 rest]

theorem processCalls_no_answer_finished (db : DBOracle) (repo : String) :
    ∀ calls : List ToolCall,
      (∀ c2 ∈ calls, c2.name ≠ "return_answer") →
      (∀ c2 ∈ calls, c2.name ∈ toolNames → (dispatchTool db repo c2.name c2.args).isOk) →
      ∀ traj, (processCalls db repo traj calls).2 = .finished := by
  intro calls
  induction calls with
  | nil => intro _ _ traj; rfl
  | cons c2 rest ih =>
    intro hnoans hok traj
    by_cases hmem : c2.name ∈ toolNames
    · cases hd : dispatchTool db repo c2.name c2.args with
      | error e =>
        have := hok c2 (List.mem_cons_self c2 rest) hmem
        rw [hd] at this
        cases this
      | ok res =>
        rw [processCalls_cons_step db repo traj c2 rest hmem res hd
          (hnoans c2 (List.mem_cons_self c2 rest))]
        exact ih (fun x hx => hnoans x (List.mem_cons_of_mem c2 hx))
          (fun x hx => hok x (List.mem_cons_of_mem c2 hx)) _
    · rw [processCalls_cons_unresolved db repo traj c2 rest hmem]
      exact ih (fun x hx => hnoans x (List.mem_cons_of_mem c2 hx))
        (fun x hx => hok x (List.mem_cons_of_mem c2 hx)) traj

/-- C4: within one model turn, the first dispatched invocation of
return_answer ends the episode: the trajectory's answer is set to the
FinalAnswer built from exactly the call's arguments, the turn outcome is
.answered (run_agent returns at once), and the calls listed after it are
never dispatched — the result does not depend on them; and a turn whose
calls never dispatch return_answer finishes with outcome .finished, so
any number of search/read invocations leave the episode running. -/
theorem claim_C4_first_return_answer_ends_episode (db : DBOracle) (repo : String)
    (traj : ProjectTrajectory) :
    (∀ pre c post a fs,
      (∀ c2 ∈ pre, c2.name ≠ "return_answer") →
      (∀ c2 ∈ pre, c2.name ∈ toolNames → (dispatchTool db repo c2.name c2.args).isOk) →
      c.name = "return_answer" → c.args = ToolArgs.answerArgs a fs →
      (processCalls db repo traj (pre ++ c :: post)).2 = TurnOutcome.answered ∧
      (processCalls db repo traj (pre ++ c :: post)).1.answer = some ⟨a, fs⟩ ∧
      processCalls db repo traj (pre ++ c :: post) =
        processCalls db repo traj (pre ++ [c])) ∧
    (∀ calls : List ToolCall,
      (∀ c2 ∈ calls, c2.name ≠ "return_answer") →
      (∀ c2 ∈ calls, c2.name ∈ toolNames → (dispatchTool db repo c2.name c2.args).isOk) →
      (processCalls db repo traj calls).2 = TurnOutcome.finished) := by
  constructor
  · intro pre c post a fs hnoans hok hname hargs
    obtain ⟨traj1, hskip⟩ := processCalls_skip_front db repo pre hnoans hok traj
    rw [hskip (c :: post), hskip [c],
      processCalls_head_answer db repo traj1 c post a fs hname hargs,
      processCalls_head_answer db repo traj1 c [] a fs hname hargs]
    exact ⟨rfl, rfl, rfl⟩
  · intro calls hnoans hok
    exact processCalls_no_answer_finished db repo calls hnoans hok traj

theorem claim_C4_witness :
    (processCalls db0 "r" (initTraj "q") [callSearch, callAnswer, callRead]).1.answer
      = some ⟨"42", ["f"]⟩ :=
  ((claim_C4_first_return_answer_ends_episode db0 "r" (initTraj "q")).1
    [callSearch] callAnswer [callRead] "42" ["f"]
    (by decide) (by decide) rfl rfl).2.1

/-! ## Lemmas about deduplication in search_repo -/

theorem search_repo_of_ok (db : DBOracle) (repo : String) (kws : List String)
    (n : Nat) (all : List SearchResult)
    (h : collectAllResults db repo kws n = .ok all) :
    search_repo db repo kws n =
      (if ((dedupByKey [] all).take n).isEmpty then none
       else some ((dedupByKey [] all).take n)) := by
  unfold search_repo
  rw [h]

theorem search_repo_of_error (db : DBOracle) (repo : String) (kws : List String)
    (n : Nat) (e : DBError)
    (h : collectAllResults db repo kws n = .error e) :
    search_repo db repo kws n = some [] := by
  unfold search_repo
  rw [h]

theorem dedupByKey_sublist :
    ∀ (l : List SearchResult) (seen : List (String × String × String)),
      List.Sublist (dedupByKey seen l) l := by
  intro l
  induction l with
  | nil => intro seen; exact List.Sublist.refl []
  | cons r rest ih =>
    intro seen
    rw [dedupByKey]
    by_cases h : resultKey r ∈ seen
    · rw [if_pos h]
      exact (ih seen).cons r
    · rw [if_neg h]
      exact (ih (resultKey r :: seen)).cons₂ r

theorem dedupByKey_pairwise_notin :
    ∀ (l : List SearchResult) (seen : List (String × String × String)),
      List.Pairwise (fun x y => resultKey x ≠ resultKey y) (dedupByKey seen l) ∧
      ∀ r ∈ dedupByKey seen l, resultKey r ∉ seen := by
  intro l
  induction l with
  | nil => intro seen; exact ⟨List.Pairwise.nil, by intro r hr; cases hr⟩
  | cons r rest ih =>
    intro seen
    rw [dedupByKey]
    by_cases h : resultKey r ∈ seen
    · rw [if_pos h]
      exact ih seen
    · rw [if_neg h]
      obtain ⟨hpw, hnotin⟩ := ih (resultKey r :: seen)
      refine ⟨List.Pairwise.cons ?_ hpw, ?_⟩
      · intro y hy
        have := hnotin y hy
        intro hcon
        exact this (by rw [← hcon]; exact List.mem_cons_self _ _)
      · intro x hx
        rcases List.mem_cons.mp hx with h1 | h2
        · subst h1; exact h
        · intro hcon
          exact hnotin x h2 (List.mem_cons_of_mem _ hcon)

theorem dedupByKey_covers :
    ∀ (l : List SearchResult) (seen : List (String × String × String)),
      ∀ r ∈ l, resultKey r ∈ seen ∨
        ∃ u ∈ dedupByKey seen l, resultKey u = resultKey r := by
  intro l
  induction l with
  | nil => intro seen r hr; cases hr
  | cons x rest ih =>
    intro seen r hr
    rw [dedupByKey]
    by_cases h : resultKey x ∈ seen
    · rw [if_pos h]
      rcases List.mem_cons.mp hr with h1 | h2
      · subst h1; exact Or.inl h
      · exact ih seen r h2
    · rw [if_neg h]
      rcases List.mem_cons.mp hr with h1 | h2
      · exact Or.inr ⟨x, List.mem_cons_self _ _, by rw [h1]⟩
      · rcases ih (resultKey x :: seen) r h2 with h3 | ⟨u, hu, hk⟩
        · rcases List.mem_cons.mp h3 with h4 | h5
          · exact Or.inr ⟨x, List.mem_cons_self _ _, h4.symm⟩
          · exact Or.inl h5
        · exact Or.inr ⟨u, List.mem_cons_of_mem _ hu, hk⟩

/-- C6: the list returned by search_repo has no two entries with the same
(repo, func_path, func_name) key, it is a sublist of the collected ranked
matches (so first-occurrence order is preserved), every collected match has
a surviving representative with its key before the cap is applied
(duplicates collapse to a single entry), and the list is capped at
max_results, whose default is 20. -/
theorem claim_C6_dedup_order_cap (db : DBOracle) (repo : String)
    (kws : List String) (n : Nat) :
    (∀ all, collectAllResults db repo kws n = .ok all →
      List.Pairwise (fun x y => resultKey x ≠ resultKey y) (dedupByKey [] all) ∧
      List.Sublist (dedupByKey [] all) all ∧
      (∀ r ∈ all, ∃ u ∈ dedupByKey [] all, resultKey u = resultKey r) ∧
      (∀ l, search_repo db repo kws n = some l →
        l = (dedupByKey [] all).take n ∧
        List.Pairwise (fun x y => resultKey x ≠ resultKey y) l ∧
        List.Sublist l all ∧ l.length ≤ n)) ∧
    (search_repo db repo kws = search_repo db repo kws 20) := by
  constructor
  · intro all hall
    have hpw := (dedupByKey_pairwise_notin all []).1
    have hsub := dedupByKey_sublist all []
    have hcov : ∀ r ∈ all, ∃ u ∈ dedupByKey [] all, resultKey u = resultKey r := by
      intro r hr
      rcases dedupByKey_covers all [] r hr with h1 | h2
      · cases h1
      · exact h2
    refine ⟨hpw, hsub, hcov, ?_⟩
    intro l hl
    rw [search_repo_of_ok db repo kws n all hall] at hl
    by_cases hemp : ((dedupByKey [] all).take n).isEmpty
    · rw [if_pos hemp] at hl
      cases hl
    · rw [if_neg hemp] at hl
      injection hl with hl
      subst hl
      refine ⟨rfl, ?_, ?_, ?_⟩
      · exact hpw.sublist (List.take_sublist n _)
      · exact (List.take_sublist n _).trans hsub
      · rw [List.length_take]
        exact Nat.min_le_left n _
  · rfl

theorem claim_C6_witness :
    ((search_repo dbDup "r" ["k"] 20).getD []).length ≤ 20 :=
  (((claim_C6_dedup_order_cap dbDup "r" ["k"] 20).1
      ((collectAllResults dbDup "r" ["k"] 20).toOption.getD []) (by decide)).2.2.2
    ((search_repo dbDup "r" ["k"] 20).getD []) (by decide)).2.2.2

/-- C7: search_repo never raises for any keyword list — for every database
behavior it returns either the no-match sentinel (None) or a list bounded by
max_results, never an uncaught error; the empty keyword list builds the
wildcard FTS query "*", and when the index answers that wildcard query the
results flow through dedup and the result cap as usual. -/
theorem claim_C7_no_raise_empty_keywords (db : DBOracle) (repo : String)
    (kws : List String) (n : Nat) :
    (search_repo db repo kws n = none ∨
      ∃ l, search_repo db repo kws n = some l ∧ l.length ≤ n) ∧
    ftsQuery [] = "*" ∧
    (∀ rows, db.ftsExec "*" repo n = .ok rows →
      search_repo db repo [] n =
        (if ((dedupByKey [] (_convert_to_search_results rows)).take n).isEmpty then none
         else some ((dedupByKey [] (_convert_to_search_results rows)).take n))) := by
  refine ⟨?_, rfl, ?_⟩
  · cases hcol : collectAllResults db repo kws n with
    | error e =>
      exact Or.inr ⟨[], search_repo_of_error db repo kws n e hcol, Nat.zero_le n⟩
    | ok all =>
      rw [search_repo_of_ok db repo kws n all hcol]
      by_cases hemp : ((dedupByKey [] all).take n).isEmpty
      · rw [if_pos hemp]
        exact Or.inl rfl
      · rw [if_neg hemp]
        refine Or.inr ⟨_, rfl, ?_⟩
        rw [List.length_take]
        exact Nat.min_le_left n _
  · intro rows hrows
    have hfts : _search_with_fts db repo [] n = .ok (_convert_to_search_results rows) := by
      unfold _search_with_fts
      rw [show ftsQuery [] = "*" from rfl, hrows]
    have hcol : collectAllResults db repo [] n = .ok (_convert_to_search_results rows) := by
      unfold collectAllResults
      rw [hfts]
      show Except.ok (_convert_to_search_results rows ++ [] ++ []) = _
      rw [List.append_nil, List.append_nil]
    exact search_repo_of_ok db repo [] n _ hcol

theorem claim_C7_witness :
    search_repo db0 "r" [] 20 = none :=
  ((claim_C7_no_raise_empty_keywords db0 "r" [] 20).2.2 [] rfl).trans (by decide)

/-- C10: search_repo signals its two no-result conditions with distinct
values: a query whose collected results dedup to nothing yields None (the
no-match sentinel), a sqlite error reaching the outer handler yields the
empty list, the empty list is only ever returned on the error path, and the
two values are distinct. -/
theorem claim_C10_none_vs_empty (db : DBOracle) (repo : String)
    (kws : List String) (n : Nat) :
    (∀ e, collectAllResults db repo kws n = .error e →
      search_repo db repo kws n = some []) ∧
    (∀ all, collectAllResults db repo kws n = .ok all →
      (search_repo db repo kws n = none ↔ (dedupByKey [] all).take n = [])) ∧
    (search_repo db repo kws n = some [] →
      ∃ e, collectAllResults db repo kws n = .error e) ∧
    some ([] : List SearchResult) ≠ (none : Option (List SearchResult)) := by
  refine ⟨?_, ?_, ?_, by intro h; cases h⟩
  · intro e he
    exact search_repo_of_error db repo kws n e he
  · intro all hall
    rw [search_repo_of_ok db repo kws n all hall]
    constructor
    · intro h
      by_cases hemp : ((dedupByKey [] all).take n).isEmpty
      · exact List.isEmpty_iff.mp hemp
      · rw [if_neg hemp] at h
        cases h
    · intro h
      rw [if_pos (by rw [h]; rfl)]
  · intro h
    cases hcol : collectAllResults db repo kws n with
    | error e => exact ⟨e, rfl⟩
    | ok all =>
      exfalso
      rw [search_repo_of_ok db repo kws n all hcol] at h
      by_cases hemp : ((dedupByKey [] all).take n).isEmpty
      · rw [if_pos hemp] at h
        cases h
      · rw [if_neg hemp] at h
        injection h with h
        rw [h] at hemp
        exact hemp rfl

theorem claim_C10_witness :
    search_repo dbErr "r" ["k"] 20 = some [] ∧
    search_repo db0 "r" ["k"] 20 = none :=
  ⟨(claim_C10_none_vs_empty dbErr "r" ["k"] 20).1 (.otherError "no such table") (by decide),
   ((claim_C10_none_vs_empty db0 "r" ["k"] 20).2.1 [] (by decide)).mpr (by decide)⟩

set_option maxRecDepth 4096 in
/-- C8 counterexample: the claim that both the documentation snippet and the
code snippet of every returned result are truncated to a bounded preview
length (on the order of 200 characters or ~50 tokens) fails on a concrete
row: a 300-character documentation string is returned verbatim in the
SearchResult, untruncated. -/
theorem claim_C8_counterexample :
    (_convert_to_search_results [rowLongDoc]).map (fun r => r.funcDocs) = [longDoc] ∧
    longDoc.length = 300 := by decide

/-- C8 (amended): _convert_to_search_results truncates only the code field —
every returned result's code snippet is built from at most the first 50
whitespace tokens of func_code_tokens (with an ellipsis appended when more
were present) — while the documentation field is passed through entirely
unchanged, with no bound on its length. -/
theorem claim_C8_code_truncated_docs_passed_through (rows : List DBRow) :
    List.Forall₂ (fun (row : DBRow) (r : SearchResult) =>
      r.funcDocs = row.funcDocs ∧
      ∃ ts, List.Sublist ts (pySplit row.funcCodeTokens) ∧ ts.length ≤ 50 ∧
        (r.funcSnippet = joinSep " " ts ∨ r.funcSnippet = joinSep " " ts ++ "..."))
      rows (_convert_to_search_results rows) := by
  induction rows with
  | nil => exact List.Forall₂.nil
  | cons row rest ih =>
    refine List.Forall₂.cons ⟨rfl, ?_⟩ ih
    refine ⟨(pySplit row.funcCodeTokens).take 50, List.take_sublist _ _, ?_, ?_⟩
    · rw [List.length_take]
      exact Nat.min_le_left _ _
    · by_cases h : (pySplit row.funcCodeTokens).length > 50
      · right
        show joinSep " " ((pySplit row.funcCodeTokens).take 50) ++
          (if (pySplit row.funcCodeTokens).length > 50 then "..." else "") = _
        rw [if_pos h]
      · left
        show joinSep " " ((pySplit row.funcCodeTokens).take 50) ++
          (if (pySplit row.funcCodeTokens).length > 50 then "..." else "") = _
        rw [if_neg h, String.append_empty]

/-! ## Lemmas for the tool-call/tool-result invariant -/

theorem requestIds_append (l1 l2 : List Message) :
    requestIds (l1 ++ l2) = requestIds l1 ++ requestIds l2 := by
  simp [requestIds]

theorem resolvedIds_append (l1 l2 : List Message) :
    resolvedIds (l1 ++ l2) = resolvedIds l1 ++ resolvedIds l2 := by
  simp [resolvedIds]

theorem toolMsgCount_append (l1 l2 : List Message) (cid : String) :
    toolMsgCount (l1 ++ l2) cid = toolMsgCount l1 cid + toolMsgCount l2 cid := by
  simp [toolMsgCount, List.filter_append]

theorem toolMsgCount_assistant (ct : String) (tc : Option (List ToolCall)) (cid : String) :
    toolMsgCount [Message.assistant ct tc] cid = 0 := by
  simp [toolMsgCount, isToolMsgWithId]

theorem toolMsgCount_singleton_tool (tid nm ct cid : String) :
    toolMsgCount [Message.tool tid nm ct] cid = if tid = cid then 1 else 0 := by
  by_cases h : tid = cid <;> simp [toolMsgCount, isToolMsgWithId, h]

theorem mem_callIdsOf_of_mem_resolvedCallIds (m : Message) (cid : String)
    (h : cid ∈ resolvedCallIds m) : cid ∈ callIdsOf m := by
  cases m with
  | assistant ct tc =>
    cases tc with
    | none => simp [resolvedCallIds] at h
    | some calls =>
      simp only [resolvedCallIds, List.mem_map, List.mem_filter] at h
      obtain ⟨c, ⟨hc, _⟩, hcid⟩ := h
      exact List.mem_map.mpr ⟨c, hc, hcid⟩
  | system ct => simp [resolvedCallIds] at h
  | user ct => simp [resolvedCallIds] at h
  | tool a b c => simp [resolvedCallIds] at h

theorem mem_requestIds_of_mem_resolvedIds (msgs : List Message) (cid : String)
    (h : cid ∈ resolvedIds msgs) : cid ∈ requestIds msgs := by
  simp only [resolvedIds, List.mem_flatMap] at h
  obtain ⟨m, hm, hcid⟩ := h
  exact List.mem_flatMap.mpr ⟨m, hm, mem_callIdsOf_of_mem_resolvedCallIds m cid hcid⟩

theorem nodup_requestIds_mono (l1 l2 : List Message)
    (h : l1 <+: l2) (hn : (requestIds l2).Nodup) : (requestIds l1).Nodup := by
  obtain ⟨t, rfl⟩ := h
  rw [requestIds_append] at hn
  exact hn.of_append_left

theorem flatMap_eq_nil_of_all_nil (f : Message → List String) :
    ∀ ts : List Message, (∀ m ∈ ts, f m = []) → ts.flatMap f = [] := by
  intro ts
  induction ts with
  | nil => intro _; rfl
  | cons m rest ih =>
    intro h
    rw [List.flatMap_cons, h m (List.mem_cons_self _ _),
      ih (fun x hx => h x (List.mem_cons_of_mem _ hx))]
    rfl

theorem processCalls_ids_invariant (db : DBOracle) (repo : String)
    (calls : List ToolCall) (traj : ProjectTrajectory) :
    requestIds (processCalls db repo traj calls).1.messagesAndChoices =
      requestIds traj.messagesAndChoices ∧
    resolvedIds (processCalls db repo traj calls).1.messagesAndChoices =
      resolvedIds traj.messagesAndChoices := by
  obtain ⟨ts, hts, hall⟩ := processCalls_msgs_append db repo calls traj
  rw [hts, requestIds_append, resolvedIds_append]
  constructor
  · rw [show requestIds ts = ts.flatMap callIdsOf from rfl,
      flatMap_eq_nil_of_all_nil callIdsOf ts (fun m hm => (hall m hm).1), List.append_nil]
  · rw [show resolvedIds ts = ts.flatMap resolvedCallIds from rfl,
      flatMap_eq_nil_of_all_nil resolvedCallIds ts (fun m hm => (hall m hm).2.1),
      List.append_nil]

theorem countResolved_cons (c : ToolCall) (calls : List ToolCall) (cid : String) :
    countResolved (c :: calls) cid =
      (if c.name ∈ toolNames ∧ c.id = cid then 1 else 0) + countResolved calls cid := by
  by_cases h1 : c.name ∈ toolNames <;> by_cases h2 : c.id = cid <;>
    simp [countResolved, List.filter_cons, h1, h2, Nat.add_comm]

theorem countResolved_pos (calls : List ToolCall) (cid : String)
    (h : 0 < countResolved calls cid) :
    ∃ c ∈ calls, c.name ∈ toolNames ∧ c.id = cid := by
  unfold countResolved at h
  have hne := List.length_pos.mp h
  obtain ⟨c, hc⟩ := List.exists_mem_of_ne_nil _ hne
  have := List.mem_filter.mp hc
  refine ⟨c, this.1, ?_⟩
  have h2 := this.2
  simp only [Bool.and_eq_true, decide_eq_true_eq] at h2
  exact h2

theorem countResolved_zero_of_not_mem (calls : List ToolCall) (cid : String)
    (h : cid ∉ calls.map (fun c => c.id)) :
    countResolved calls cid = 0 := by
  unfold countResolved
  rw [List.length_eq_zero, List.filter_eq_nil_iff]
  intro c hc
  simp only [Bool.and_eq_true, decide_eq_true_eq, not_and]
  intro _ hid
  exact absurd (List.mem_map.mpr ⟨c, hc, hid⟩) h

theorem countResolved_one : ∀ (calls : List ToolCall) (cid : String) (c : ToolCall),
    (calls.map (fun x => x.id)).Nodup → c ∈ calls → c.name ∈ toolNames → c.id = cid →
    countResolved calls cid = 1 := by
  intro calls
  induction calls with
  | nil => intro cid c _ hc; cases hc
  | cons d rest ih =>
    intro cid c hnd hc hres hid
    rw [List.map_cons, List.nodup_cons] at hnd
    rw [countResolved_cons]
    rcases List.mem_cons.mp hc with h1 | h2
    · subst h1
      rw [if_pos ⟨hres, hid⟩,
        countResolved_zero_of_not_mem rest cid (by rw [← hid]; exact hnd.1)]
    · have hne : ¬(d.name ∈ toolNames ∧ d.id = cid) := by
        rintro ⟨_, hdid⟩
        exact hnd.1 (by rw [hdid, ← hid]; exact List.mem_map.mpr ⟨c, h2, rfl⟩)
      rw [if_neg hne, ih cid c hnd.2 h2 hres hid]

theorem processCalls_finished_count (db : DBOracle) (repo : String) :
    ∀ (calls : List ToolCall) (traj : ProjectTrajectory) (cid : String),
      (processCalls db repo traj calls).2 = .finished →
      toolMsgCount (processCalls db repo traj calls).1.messagesAndChoices cid =
        toolMsgCount traj.messagesAndChoices cid + countResolved calls cid := by
  intro calls
  induction calls with
  | nil =>
    intro traj cid _
    simp [processCalls, countResolved]
  | cons c rest ih =>
    intro traj cid hfin
    by_cases hmem : c.name ∈ toolNames
    · cases hd : dispatchTool db repo c.name c.args with
      | error e =>
        rw [processCalls_cons_error db repo traj c rest hmem e hd] at hfin
        cases hfin
      | ok res =>
        by_cases hname : c.name = "return_answer"
        · rw [processCalls_cons_answer db repo traj c rest hmem res hd hname] at hfin
          cases hfin
        · rw [processCalls_cons_step db repo traj c rest hmem res hd hname] at hfin ⊢
          rw [ih (addMsg traj (Message.tool c.id c.name (strOfToolResult res))) cid hfin,
            show (addMsg traj (Message.tool c.id c.name (strOfToolResult res))).messagesAndChoices
              = traj.messagesAndChoices ++ [Message.tool c.id c.name (strOfToolResult res)]
              from rfl,
            toolMsgCount_append, toolMsgCount_singleton_tool, countResolved_cons]
          by_cases hid : c.id = cid
          · rw [if_pos hid, if_pos ⟨hmem, hid⟩]
            omega
          · rw [if_neg hid, if_neg (by rintro ⟨_, h⟩; exact hid h)]
            omega
    · rw [processCalls_cons_unresolved db repo traj c rest hmem] at hfin ⊢
      rw [ih traj cid hfin, countResolved_cons,
        if_neg (by rintro ⟨h, _⟩; exact hmem h)]
      omega

theorem convInv_step (db : DBOracle) (repo : String) (traj1 : ProjectTrajectory)
    (msgs : List Message) (ct : String) (calls : List ToolCall)
    (htraj : traj1.messagesAndChoices = msgs ++ [Message.assistant ct (some calls)])
    (hInv : convInv msgs)
    (hnodup : (requestIds (msgs ++ [Message.assistant ct (some calls)])).Nodup)
    (hfin : (processCalls db repo traj1 calls).2 = .finished) :
    convInv (processCalls db repo traj1 calls).1.messagesAndChoices := by
  have hreq1 : requestIds (msgs ++ [Message.assistant ct (some calls)]) =
      requestIds msgs ++ calls.map (fun c => c.id) := by
    rw [requestIds_append]
    simp [requestIds, callIdsOf]
  have hres1 : resolvedIds (msgs ++ [Message.assistant ct (some calls)]) =
      resolvedIds msgs ++
        (calls.filter (fun c => decide (c.name ∈ toolNames))).map (fun c => c.id) := by
    rw [resolvedIds_append]
    simp [resolvedIds, resolvedCallIds]
  have hcnt1 : ∀ cid, toolMsgCount (msgs ++ [Message.assistant ct (some calls)]) cid =
      toolMsgCount msgs cid := by
    intro cid
    rw [toolMsgCount_append, toolMsgCount_assistant]
    omega
  rw [hreq1, List.nodup_append] at hnodup
  obtain ⟨hndOld, hndCalls, hdisj⟩ := hnodup
  have hcountM := fun cid => processCalls_finished_count db repo calls traj1 cid hfin
  have hidsM := processCalls_ids_invariant db repo calls traj1
  constructor
  · intro cid hcid
    rw [hidsM.2, htraj, hres1] at hcid
    rcases List.mem_append.mp hcid with hold | hnew
    · have h1 : toolMsgCount msgs cid = 1 := hInv.1 cid hold
      have h0 : countResolved calls cid = 0 := by
        apply countResolved_zero_of_not_mem
        intro hmemids
        exact hdisj (mem_requestIds_of_mem_resolvedIds msgs cid hold) hmemids
      rw [hcountM cid, htraj, hcnt1 cid, h1, h0]
    · obtain ⟨c, hcfilter, hcid2⟩ := List.mem_map.mp hnew
      have hcmem : c ∈ calls := (List.mem_filter.mp hcfilter).1
      have hcres : c.name ∈ toolNames := by
        have h2 := (List.mem_filter.mp hcfilter).2
        simpa using h2
      have h0 : toolMsgCount msgs cid = 0 := by
        by_contra hpos
        have hp : 0 < toolMsgCount msgs cid := Nat.pos_of_ne_zero hpos
        exact hdisj (mem_requestIds_of_mem_resolvedIds msgs cid (hInv.2 cid hp))
          (by rw [← hcid2]; exact List.mem_map.mpr ⟨c, hcmem, rfl⟩)
      have h1 : countResolved calls cid = 1 :=
        countResolved_one calls cid c hndCalls hcmem hcres hcid2
      rw [hcountM cid, htraj, hcnt1 cid, h0, h1]
  · intro cid hpos
    rw [hcountM cid, htraj, hcnt1 cid] at hpos
    rw [hidsM.2, htraj, hres1]
    by_cases hc0 : 0 < toolMsgCount msgs cid
    · exact List.mem_append.mpr (Or.inl (hInv.2 cid hc0))
    · have hcr : 0 < countResolved calls cid := by omega
      obtain ⟨c, hcmem, hcres, hcid2⟩ := countResolved_pos calls cid hcr
      exact List.mem_append.mpr (Or.inr (List.mem_map.mpr
        ⟨c, List.mem_filter.mpr ⟨hcmem, by simpa using hcres⟩, hcid2⟩))

theorem runLoop_log_balanced (infer : List Message → AssistantMsg) (db : DBOracle)
    (repo : String) :
    ∀ fuel traj, convInv traj.messagesAndChoices →
      (requestIds (runLoop infer db repo fuel traj).1.messagesAndChoices).Nodup →
      ∀ conv ∈ (runLoop infer db repo fuel traj).2.2, balancedResolved conv := by
  intro fuel
  induction fuel with
  | zero => intro traj _ _ conv hconv; cases hconv
  | succ fuel ih =>
    intro traj hInv hnodup conv hconv
    cases hc : (infer traj.messagesAndChoices).toolCalls with
    | none =>
      rw [runLoop_succ_none infer db repo fuel traj hc] at hconv
      simp only [List.mem_singleton] at hconv
      subst hconv
      exact hInv.1
    | some calls =>
      rcases hp : processCalls db repo
        (addMsg traj (Message.assistant (infer traj.messagesAndChoices).content (some calls)))
        calls with ⟨traj2, oc⟩
      cases oc with
      | answered =>
        rw [runLoop_succ_answered infer db repo fuel traj calls traj2 hc hp] at hconv
        simp only [List.mem_singleton] at hconv
        subst hconv
        exact hInv.1
      | errored =>
        rw [runLoop_succ_errored infer db repo fuel traj calls traj2 hc hp] at hconv
        simp only [List.mem_singleton] at hconv
        subst hconv
        exact hInv.1
      | finished =>
        rw [runLoop_succ_finished infer db repo fuel traj calls traj2 hc hp] at hconv hnodup
        dsimp only at hconv hnodup
        rcases List.mem_cons.mp hconv with h1 | h2
        · subst h1
          exact hInv.1
        · have hfin : (processCalls db repo
              (addMsg traj (Message.assistant (infer traj.messagesAndChoices).content
                (some calls))) calls).2 = .finished := by rw [hp]
          have hpre : (addMsg traj (Message.assistant (infer traj.messagesAndChoices).content
              (some calls))).messagesAndChoices <+:
              (runLoop infer db repo fuel traj2).1.messagesAndChoices := by
            have hpre0 := processCalls_msgs_isPrefixOf db repo calls
              (addMsg traj (Message.assistant (infer traj.messagesAndChoices).content
                (some calls)))
            rw [hp] at hpre0
            exact hpre0.trans (runLoop_msgs_isPrefixOf infer db repo fuel traj2)
          have hnodup1 : (requestIds (traj.messagesAndChoices ++
              [Message.assistant (infer traj.messagesAndChoices).content
                (some calls)])).Nodup :=
            nodup_requestIds_mono _ _ hpre hnodup
          have hInv2 : convInv traj2.messagesAndChoices := by
            have := convInv_step db repo
              (addMsg traj (Message.assistant (infer traj.messagesAndChoices).content
                (some calls)))
              traj.messagesAndChoices (infer traj.messagesAndChoices).content calls
              rfl hInv hnodup1 hfin
            rw [hp] at this
            exact this
          exact ih traj2 hInv2 hnodup conv h2

/-- C9 counterexample: the claim that every tool-call request — including
those whose tool name is not in the offered vocabulary — has exactly one
tool-result message before the next assistant turn is requested is false: a
request named bogus_tool is silently skipped with no tool-result, and the
loop still requests another assistant turn on that unbalanced
conversation. -/
theorem claim_C9_counterexample :
    ((run_agent inferBogus db0 "r" "q").2.2.getD 1 []) ∈
      (run_agent inferBogus db0 "r" "q").2.2 ∧
    ¬ balancedAll ((run_agent inferBogus db0 "r" "q").2.2.getD 1 []) := by
  set_option maxRecDepth 65536 in decide

/-- C9 (amended): whenever the episode's tool-call ids are pairwise distinct
(as API-generated correlation ids are), every conversation handed to the
inference call has exactly one tool-result message (matched by correlation
id) for every earlier tool-call request whose name resolves in the offered
vocabulary; unresolved requests are skipped without a result. -/
theorem claim_C9_resolved_requests_balanced
    (infer : List Message → AssistantMsg) (db : DBOracle) (repo question : String)
    (hnodup : (requestIds (run_agent infer db repo question).1.messagesAndChoices).Nodup) :
    ∀ conv ∈ (run_agent infer db repo question).2.2, balancedResolved conv := by
  apply runLoop_log_balanced infer db repo MAX_TURNS (initTraj question) ?_ hnodup
  constructor
  · intro cid hcid
    simp [initTraj, resolvedIds, resolvedCallIds, SYSTEM_PROMPT] at hcid
  · intro cid hpos
    simp [initTraj, toolMsgCount, isToolMsgWithId, SYSTEM_PROMPT] at hpos

theorem claim_C9_witness :
    balancedResolved ((run_agent inferOneSearch db0 "r" "q").2.2.getD 1 []) :=
  claim_C9_resolved_requests_balanced inferOneSearch db0 "r" "q"
    (by set_option maxRecDepth 65536 in decide)
    ((run_agent inferOneSearch db0 "r" "q").2.2.getD 1 [])
    (by set_option maxRecDepth 65536 in decide)
